import Mathlib

/-!
Verification of the `react-nats` adapter layer.

A shallow embedding of the pure logic of the `react-nats` repository:

* `stableUpsert`, `flushUpdates` and the watch-event handling of
  `useNatsKvTable` (the key-value table hook);
* the message read loop of `useNatsStream` (the stream hook), including
  acknowledgement and the effect-cancellation flag;
* the ordered-consumer option construction of `useNatsStream`;
* the connection-option merging of `NatsProvider`.

Modelling conventions: JavaScript arrays are Lean lists; `Date` values are
naturals; `Date.prototype.toISOString` is an abstract function parameter;
string keys are a type `K` with a linear order standing for the total order
induced by `String.prototype.localeCompare`; `Array.prototype.sort` with a
comparator (stable per the ECMAScript specification) is modelled by the
stable `List.insertionSort`.
-/

namespace ReactNats

/-- Type `NatsEntry<T>` from `types.ts`: a key, a (decoded, possibly enriched)
value, and the entry's creation time. -/
structure NatsEntry (K V : Type) where
  key : K
  value : V
  created : Nat
deriving DecidableEq

/-- Type `NatsMessage<T>` from `types.ts`: subject, decoded value, receipt time. -/
structure NatsMessage (T : Type) where
  subject : String
  value : T
  received : Nat
deriving DecidableEq

variable {K V : Type} [LinearOrder K]

/-- The order on entries induced by the comparator
`(a, b) => a.key.localeCompare(b.key)`. -/
def keyLe (a b : NatsEntry K V) : Prop := a.key ≤ b.key

instance : DecidableRel (keyLe (K := K) (V := V)) :=
  fun a b => inferInstanceAs (Decidable (a.key ≤ b.key))

instance : IsTotal (NatsEntry K V) keyLe := ⟨fun a b => le_total a.key b.key⟩

instance : IsTrans (NatsEntry K V) keyLe := ⟨fun _ _ _ => le_trans⟩

/-- Function `stableUpsert` from `useNatsKvTable` with `inPlace = false`: look for the
first entry with the new entry's key; when found at `index`, return
`[...arr.slice(0, index), newEntry, ...arr.slice(index + 1)]`; otherwise
return `[...arr, newEntry].sort((a, b) => a.key.localeCompare(b.key))`. -/
def stableUpsert (arr : List (NatsEntry K V)) (newEntry : NatsEntry K V) :
    List (NatsEntry K V) :=
  match arr.findIdx? (fun item => item.key == newEntry.key) with
  | some index => arr.take index ++ newEntry :: arr.drop (index + 1)
  | none => List.insertionSort keyLe (arr ++ [newEntry])

/-- Function `stableUpsert` from `useNatsKvTable` with `inPlace = true`: when the key
is found at `index`, assign `arr[index] = newEntry`; otherwise push the new
entry and sort the array in place with the same comparator. -/
def stableUpsertInPlace (arr : List (NatsEntry K V)) (newEntry : NatsEntry K V) :
    List (NatsEntry K V) :=
  match arr.findIdx? (fun item => item.key == newEntry.key) with
  | some index => arr.set index newEntry
  | none => List.insertionSort keyLe (arr ++ [newEntry])

/-- The table invariant of the claim: entries ascending by key under the
`localeCompare` order, and at most one entry per key. -/
def TableInv (l : List (NatsEntry K V)) : Prop :=
  l.Sorted keyLe ∧ (l.map NatsEntry.key).Nodup

instance (l : List (NatsEntry K V)) : Decidable (TableInv l) :=
  inferInstanceAs (Decidable (_ ∧ _))

/-- Function `flushUpdates` from `useNatsKvTable`: snapshot the pending updates and,
when nonempty, clear the buffer and fold them into a copy of the previous
entries with `stableUpsert(acc, newEntry, true)`; otherwise leave the
entries untouched. Returns the resulting entries array. -/
def flushUpdates (prev updates : List (NatsEntry K V)) : List (NatsEntry K V) :=
  if updates.isEmpty then prev
  else updates.foldl (fun acc newEntry => stableUpsertInPlace acc newEntry) prev

/-- A key-value watch event as handled by `useNatsKvTable`: a `PUT` carrying
the decoded (and possibly enriched) entry, a `DEL` or `PURGE` carrying the
key, or a tick of the `refreshInterval` timer that runs `flushUpdates`. -/
inductive KvEvent (K V : Type) where
  | put (e : NatsEntry K V)
  | del (k : K)
  | purge (k : K)
  | flushTick
deriving DecidableEq

/-- State of the batched (`refreshInterval > 0`) path of `useNatsKvTable`:
the visible `entries` React state and the `pendingUpdates` ref. -/
structure KvState (K V : Type) where
  entries : List (NatsEntry K V)
  pending : List (NatsEntry K V)
deriving DecidableEq

/-- One step of the batched path of `useNatsKvTable`: `PUT` pushes the new
entry onto `pendingUpdates`; `DEL`/`PURGE` filter the key out of both
`pendingUpdates` and `entries` immediately; a timer tick runs
`flushUpdates` and clears the buffer. -/
def applyBatched (s : KvState K V) : KvEvent K V → KvState K V
  | .put e => { s with pending := s.pending ++ [e] }
  | .del k => { entries := s.entries.filter (fun item => item.key != k),
                pending := s.pending.filter (fun item => item.key != k) }
  | .purge k => { entries := s.entries.filter (fun item => item.key != k),
                  pending := s.pending.filter (fun item => item.key != k) }
  | .flushTick => { entries := flushUpdates s.entries s.pending, pending := [] }

/-- The batched path run from the hook's initial state (`entries` is `[]`,
`pendingUpdates.current` is `[]`). -/
def runBatched (evs : List (KvEvent K V)) : KvState K V :=
  evs.foldl applyBatched ⟨[], []⟩

/-- One step of the unbatched (`refreshInterval <= 0`) path of
`useNatsKvTable`: `PUT` applies the copying `stableUpsert` immediately;
`DEL`/`PURGE` filter the key out; there is no timer, so a tick is a no-op. -/
def applyUnbatched (entries : List (NatsEntry K V)) : KvEvent K V → List (NatsEntry K V)
  | .put e => stableUpsert entries e
  | .del k => entries.filter (fun item => item.key != k)
  | .purge k => entries.filter (fun item => item.key != k)
  | .flushTick => entries

/-- The unbatched path run from the hook's initial state. -/
def runUnbatched (evs : List (KvEvent K V)) : List (NatsEntry K V) :=
  evs.foldl applyUnbatched []

/-- A raw JetStream message as seen by the read loop of `useNatsStream`:
receipt time (`m.time`, dates being naturals here), subject (`m.subject`)
and undecoded payload (`m.data`). -/
structure RawMsg (D : Type) where
  time : Nat
  subject : String
  data : D
deriving DecidableEq

/-- The record built for each message in the read loop:
`{received: m.time, subject: m.subject, value: decoder.decode(m.data)}`. -/
def mkRecord {D T : Type} (decode : D → T) (m : RawMsg D) : NatsMessage T :=
  { subject := m.subject, value := decode m.data, received := m.time }

/-- The fold step of the read loop:
`effectData = reducer.reduce(effectData, d)` with `d` the record built from
the message. -/
def streamStep {D T : Type} (decode : D → T)
    (reduce : List (NatsMessage T) → NatsMessage T → List (NatsMessage T))
    (acc : List (NatsMessage T)) (m : RawMsg D) : List (NatsMessage T) :=
  reduce acc (mkRecord decode m)

/-- Observable outcome of the read loop: the messages acknowledged with
`m.ack()` in order, the successive arrays published with `setData`, and the
final value of the local `effectData`. -/
structure LoopResult (D T : Type) where
  acked : List (RawMsg D)
  published : List (List (NatsMessage T))
  final : List (NatsMessage T)
deriving DecidableEq

/-- Whether the cleanup of the effect has already run (so `isCurrent` reads
`false`) at the flag check of iteration `i`. `cancelAt = some k` means the
effect was cancelled during iteration `k`, before that iteration's check;
`none` means the effect stays current for the whole run. -/
def cancelObserved (cancelAt : Option Nat) (i : Nat) : Bool :=
  match cancelAt with
  | none => false
  | some k => k ≤ i

/-- The body of `for await (const m of messages)` in `useNatsStream`,
started at iteration `i` with accumulator `effectData`: build the record,
fold it with the reducer, acknowledge the message, and then — only if the
effect is still current — publish the accumulator with `setData` and
continue; otherwise break out of the loop. -/
def streamLoopAux {D T : Type} (decode : D → T)
    (reduce : List (NatsMessage T) → NatsMessage T → List (NatsMessage T))
    (cancelAt : Option Nat) :
    Nat → List (NatsMessage T) → List (RawMsg D) → LoopResult D T
  | _, effectData, [] => { acked := [], published := [], final := effectData }
  | i, effectData, m :: rest =>
    let d := mkRecord decode m
    let folded := reduce effectData d
    if cancelObserved cancelAt i then
      { acked := [m], published := [], final := folded }
    else
      let r := streamLoopAux decode reduce cancelAt (i + 1) folded rest
      { acked := m :: r.acked, published := folded :: r.published, final := r.final }

/-- The full read loop, from iteration `0` with `effectData = []`. -/
def streamLoop {D T : Type} (decode : D → T)
    (reduce : List (NatsMessage T) → NatsMessage T → List (NatsMessage T))
    (cancelAt : Option Nat) (msgs : List (RawMsg D)) : LoopResult D T :=
  streamLoopAux decode reduce cancelAt 0 [] msgs

/-- The `data` state visible after the loop: the last array passed to
`setData`, or the initial `[]` when nothing was published. -/
def shownData {D T : Type} (r : LoopResult D T) : List (NatsMessage T) :=
  r.published.getLastD []

/-- Deliver policies of the JetStream client library (the constructor used
by this repository plus the other documented ones). -/
inductive DeliverPolicy where
  | all
  | last
  | new
  | lastPerSubject
  | startSequence
  | startTime
deriving DecidableEq

/-- The subset of `OrderedConsumerOptions` populated by `useNatsStream`,
every field optional as in the partial options object `opt`. `S` stands for
the `string | string[]` type of the `subject` option. -/
structure OrderedConsumerOpts (S : Type) where
  deliver_policy : Option DeliverPolicy
  opt_start_time : Option String
  filter_subjects : Option S
deriving DecidableEq

/-- The option construction of `useNatsStream`: start from the empty options
object `opt`; when `opt_start_time` is present, set `opt.opt_start_time` to
its ISO-8601 rendering (`Date.prototype.toISOString`, the abstract parameter
`toISO`) and `opt.deliver_policy` to the start-time policy; when `subject`
is present, set `opt.filter_subjects` to it. -/
def mkConsumerOpts {S : Type} (toISO : Nat → String)
    (startTime : Option Nat) (subject : Option S) : OrderedConsumerOpts S :=
  let o : OrderedConsumerOpts S :=
    { deliver_policy := none, opt_start_time := none, filter_subjects := none }
  let o2 := match startTime with
    | some t => { o with opt_start_time := some (toISO t),
                         deliver_policy := some DeliverPolicy.startTime }
    | none => o
  match subject with
  | some s => { o2 with filter_subjects := some s }
  | none => o2

/-- The effect body of `useNatsStream`, from `setData([])` up to the read
loop: reset the data, return early when the connection, `opt_start_time` or
`stream` is missing, and otherwise create the consumer and run the loop.
Returns the successive values passed to `setData` (the leading `[]` is the
reset) and, when a consumer is created, the stream name and options passed
to `js.consumers.get`; `none` means no external call was made. -/
def streamEffect {D T S : Type} (toISO : Nat → String) (decode : D → T)
    (reduce : List (NatsMessage T) → NatsMessage T → List (NatsMessage T))
    (cancelAt : Option Nat) (connection : Option Unit) (stream : Option String)
    (startTime : Option Nat) (subject : Option S) (msgs : List (RawMsg D)) :
    List (List (NatsMessage T)) × Option (String × OrderedConsumerOpts S) :=
  match connection with
  | none => ([[]], none)
  | some _ =>
    match startTime with
    | none => ([[]], none)
    | some t =>
      match stream with
      | none => ([[]], none)
      | some st =>
        ([] :: (streamLoop decode reduce cancelAt msgs).published,
          some (st, mkConsumerOpts toISO (some t) subject))

/-- The fields of the client's `ConnectionOptions` that `NatsProvider`
defaults; `none` models a key absent from the user's partial `options`. -/
structure ConnectionOptions where
  servers : Option String
  reconnect : Option Bool
  pingInterval : Option Nat
  maxPingOut : Option Nat
deriving DecidableEq

/-- The resolved options object passed to `wsconnect`. -/
structure ResolvedConnectionOptions where
  servers : String
  reconnect : Bool
  pingInterval : Nat
  maxPingOut : Nat
deriving DecidableEq

/-- The argument of the `wsconnect` call in `NatsProvider`:
`{ servers: url, reconnect: true, pingInterval: 10000, maxPingOut: 5,
...options }` — the spread gives every key present in `options` precedence
over the defaults written before it. -/
def wsconnectArgs (url : String) (options : ConnectionOptions) :
    ResolvedConnectionOptions :=
  { servers := options.servers.getD url
    reconnect := options.reconnect.getD true
    pingInterval := options.pingInterval.getD 10000
    maxPingOut := options.maxPingOut.getD 5 }

theorem tableInv_iff_pairwise (l : List (NatsEntry K V)) :
    TableInv l ↔ l.Pairwise (fun a b => a.key < b.key) := by
  constructor
  · rintro ⟨hs, hn⟩
    have hne : l.Pairwise (fun a b : NatsEntry K V => a.key ≠ b.key) :=
      (List.pairwise_map).mp hn
    exact (hs.and hne).imp (fun h => lt_of_le_of_ne h.1 h.2)
  · intro h
    refine ⟨h.imp le_of_lt, (List.pairwise_map).mpr (h.imp ne_of_lt)⟩

omit [LinearOrder K] in
theorem set_self (l : List (NatsEntry K V)) (i : Nat) (h : i < l.length) :
    l.set i (l.get ⟨i, h⟩) = l := by
  apply List.ext_getElem?
  intro n
  rw [List.getElem?_set]
  split
  · next heq =>
      subst heq
      exact (List.getElem?_eq_getElem h).symm
  · rfl

theorem stableUpsert_found {arr : List (NatsEntry K V)} {e : NatsEntry K V} {i : Nat}
    (hf : arr.findIdx? (fun item => item.key == e.key) = some i) :
    stableUpsert arr e = arr.take i ++ e :: arr.drop (i + 1) := by
  unfold stableUpsert
  rw [hf]

theorem stableUpsert_notFound {arr : List (NatsEntry K V)} {e : NatsEntry K V}
    (hf : arr.findIdx? (fun item => item.key == e.key) = none) :
    stableUpsert arr e = List.insertionSort keyLe (arr ++ [e]) := by
  unfold stableUpsert
  rw [hf]

theorem stableUpsertInPlace_found {arr : List (NatsEntry K V)} {e : NatsEntry K V} {i : Nat}
    (hf : arr.findIdx? (fun item => item.key == e.key) = some i) :
    stableUpsertInPlace arr e = arr.set i e := by
  unfold stableUpsertInPlace
  rw [hf]

theorem stableUpsertInPlace_notFound {arr : List (NatsEntry K V)} {e : NatsEntry K V}
    (hf : arr.findIdx? (fun item => item.key == e.key) = none) :
    stableUpsertInPlace arr e = List.insertionSort keyLe (arr ++ [e]) := by
  unfold stableUpsertInPlace
  rw [hf]

theorem stableUpsertInPlace_eq (arr : List (NatsEntry K V)) (e : NatsEntry K V) :
    stableUpsertInPlace arr e = stableUpsert arr e := by
  cases hf : arr.findIdx? (fun item => item.key == e.key) with
  | none => rw [stableUpsertInPlace_notFound hf, stableUpsert_notFound hf]
  | some i =>
    obtain ⟨hi, -⟩ := List.findIdx?_eq_some_iff_findIdx_eq.mp hf
    rw [stableUpsertInPlace_found hf, stableUpsert_found hf]
    exact List.set_eq_take_cons_drop e hi

theorem tableInv_stableUpsert (l : List (NatsEntry K V)) (e : NatsEntry K V)
    (h : TableInv l) : TableInv (stableUpsert l e) := by
  rw [tableInv_iff_pairwise] at h ⊢
  cases hf : l.findIdx? (fun item => item.key == e.key) with
  | some i =>
    obtain ⟨hi, hidx⟩ := List.findIdx?_eq_some_iff_findIdx_eq.mp hf
    obtain ⟨hpi, -⟩ := (List.findIdx_eq hi).mp hidx
    have hkey : l[i].key = e.key := by simpa using hpi
    rw [stableUpsert_found hf, ← List.set_eq_take_cons_drop e hi]
    have hkeys : (l.set i e).map NatsEntry.key = l.map NatsEntry.key := by
      rw [List.map_set, ← hkey]
      have := set_self l i hi
      calc (l.map NatsEntry.key).set i l[i].key
          = (l.set i (l.get ⟨i, hi⟩)).map NatsEntry.key := by
            rw [List.map_set]; rfl
        _ = l.map NatsEntry.key := by rw [set_self]
    have hpl : List.Pairwise (fun a b : K => a < b) ((l.set i e).map NatsEntry.key) := by
      rw [hkeys]
      exact List.pairwise_map.mpr h
    exact List.pairwise_map.mp hpl
  | none =>
    rw [stableUpsert_notFound hf]
    have hnone := List.findIdx?_eq_none_iff.mp hf
    have hfresh : e.key ∉ l.map NatsEntry.key := by
      intro hmem
      obtain ⟨x, hx, hxk⟩ := List.mem_map.mp hmem
      have hb := hnone x hx
      rw [hxk] at hb
      simp at hb
    have hsorted : List.Sorted keyLe (List.insertionSort keyLe (l ++ [e])) :=
      List.sorted_insertionSort keyLe _
    have hperm : (List.insertionSort keyLe (l ++ [e])).Perm (l ++ [e]) :=
      List.perm_insertionSort keyLe _
    have hnodup : ((l ++ [e]).map NatsEntry.key).Nodup := by
      rw [List.map_append, List.nodup_append]
      refine ⟨List.pairwise_map.mpr (h.imp ne_of_lt), List.nodup_singleton _, ?_⟩
      intro a ha hb
      rw [List.map_singleton, List.mem_singleton] at hb
      subst hb
      exact hfresh ha
    have hnodup2 : ((List.insertionSort keyLe (l ++ [e])).map NatsEntry.key).Nodup :=
      ((hperm.map NatsEntry.key).nodup_iff).mpr hnodup
    have hne : List.Pairwise (fun a b : NatsEntry K V => a.key ≠ b.key)
        (List.insertionSort keyLe (l ++ [e])) :=
      List.pairwise_map.mp hnodup2
    exact (hsorted.and hne).imp fun hab => lt_of_le_of_ne hab.1 hab.2

theorem tableInv_filter (l : List (NatsEntry K V)) (p : NatsEntry K V → Bool)
    (h : TableInv l) : TableInv (l.filter p) := by
  rw [tableInv_iff_pairwise] at h ⊢
  exact List.Pairwise.sublist (List.filter_sublist l) h

theorem tableInv_foldl_upsert (updates : List (NatsEntry K V)) :
    ∀ prev : List (NatsEntry K V), TableInv prev →
      TableInv (updates.foldl (fun acc newEntry => stableUpsertInPlace acc newEntry) prev) := by
  induction updates with
  | nil => intro prev h; exact h
  | cons e rest ih =>
    intro prev h
    rw [List.foldl_cons]
    exact ih _ (by rw [stableUpsertInPlace_eq]; exact tableInv_stableUpsert _ _ h)

theorem tableInv_flushUpdates (prev updates : List (NatsEntry K V))
    (h : TableInv prev) : TableInv (flushUpdates prev updates) := by
  unfold flushUpdates
  split
  · exact h
  · exact tableInv_foldl_upsert updates prev h

theorem tableInv_applyBatched (s : KvState K V) (ev : KvEvent K V)
    (h : TableInv s.entries) : TableInv (applyBatched s ev).entries := by
  cases ev with
  | put e => exact h
  | del k => exact tableInv_filter _ _ h
  | purge k => exact tableInv_filter _ _ h
  | flushTick => exact tableInv_flushUpdates _ _ h

theorem tableInv_foldl_batched (evs : List (KvEvent K V)) :
    ∀ s : KvState K V, TableInv s.entries → TableInv (evs.foldl applyBatched s).entries := by
  induction evs with
  | nil => intro s h; exact h
  | cons ev rest ih => intro s h; exact ih _ (tableInv_applyBatched s ev h)

theorem tableInv_applyUnbatched (entries : List (NatsEntry K V)) (ev : KvEvent K V)
    (h : TableInv entries) : TableInv (applyUnbatched entries ev) := by
  cases ev with
  | put e => exact tableInv_stableUpsert _ _ h
  | del k => exact tableInv_filter _ _ h
  | purge k => exact tableInv_filter _ _ h
  | flushTick => exact h

theorem tableInv_foldl_unbatched (evs : List (KvEvent K V)) :
    ∀ l : List (NatsEntry K V), TableInv l → TableInv (evs.foldl applyUnbatched l) := by
  induction evs with
  | nil => intro l h; exact h
  | cons ev rest ih => intro l h; exact ih _ (tableInv_applyUnbatched l ev h)

theorem tableInv_nil : TableInv ([] : List (NatsEntry K V)) :=
  ⟨List.sorted_nil, List.nodup_nil⟩

theorem foldl_upsertInPlace_eq_foldl_upsert (updates : List (NatsEntry K V)) :
    ∀ prev : List (NatsEntry K V),
      updates.foldl (fun acc newEntry => stableUpsertInPlace acc newEntry) prev
        = updates.foldl (fun acc newEntry => stableUpsert acc newEntry) prev := by
  induction updates with
  | nil => intro prev; rfl
  | cons e rest ih =>
    intro prev
    rw [List.foldl_cons, List.foldl_cons, stableUpsertInPlace_eq]
    exact ih _

theorem foldl_batched_puts (es : List (NatsEntry K V)) :
    ∀ s : KvState K V,
      (es.map KvEvent.put).foldl applyBatched s = ⟨s.entries, s.pending ++ es⟩ := by
  induction es with
  | nil => intro s; simp
  | cons e rest ih =>
    intro s
    rw [List.map_cons, List.foldl_cons, ih]
    simp [applyBatched]

theorem foldl_unbatched_puts (es : List (NatsEntry K V)) :
    ∀ l : List (NatsEntry K V),
      (es.map KvEvent.put).foldl applyUnbatched l
        = es.foldl (fun acc e => stableUpsert acc e) l := by
  induction es with
  | nil => intro l; rfl
  | cons e rest ih =>
    intro l
    rw [List.map_cons, List.foldl_cons, List.foldl_cons]
    exact ih _

section StreamLoop

variable {D T : Type} (decode : D → T)
  (reduce : List (NatsMessage T) → NatsMessage T → List (NatsMessage T))

theorem streamLoopAux_none_final :
    ∀ (msgs : List (RawMsg D)) (i : Nat) (eff : List (NatsMessage T)),
      (streamLoopAux decode reduce none i eff msgs).final
        = msgs.foldl (streamStep decode reduce) eff := by
  intro msgs
  induction msgs with
  | nil => intro i eff; rfl
  | cons m rest ih =>
    intro i eff
    simp only [streamLoopAux, cancelObserved, List.foldl_cons]
    exact ih (i + 1) _

theorem streamLoopAux_none_shown :
    ∀ (msgs : List (RawMsg D)) (i : Nat) (eff : List (NatsMessage T)),
      (streamLoopAux decode reduce none i eff msgs).published.getLastD eff
        = (streamLoopAux decode reduce none i eff msgs).final := by
  intro msgs
  induction msgs with
  | nil => intro i eff; rfl
  | cons m rest ih =>
    intro i eff
    simp only [streamLoopAux, cancelObserved, Bool.false_eq_true, if_false]
    rw [List.getLastD_cons]
    exact ih (i + 1) _

theorem streamLoopAux_none_acked :
    ∀ (msgs : List (RawMsg D)) (i : Nat) (eff : List (NatsMessage T)),
      (streamLoopAux decode reduce none i eff msgs).acked = msgs := by
  intro msgs
  induction msgs with
  | nil => intro i eff; rfl
  | cons m rest ih =>
    intro i eff
    simp only [streamLoopAux, cancelObserved, Bool.false_eq_true, if_false]
    rw [ih (i + 1)]

theorem streamLoopAux_none_published :
    ∀ (msgs : List (RawMsg D)) (i : Nat) (eff : List (NatsMessage T)),
      (streamLoopAux decode reduce none i eff msgs).published
        = (List.range msgs.length).map
            (fun j => (msgs.take (j + 1)).foldl (streamStep decode reduce) eff) := by
  intro msgs
  induction msgs with
  | nil => intro i eff; rfl
  | cons m rest ih =>
    intro i eff
    simp only [streamLoopAux, cancelObserved, Bool.false_eq_true, if_false, List.length_cons]
    rw [List.range_succ_eq_map, List.map_cons, List.map_map, ih (i + 1)]
    refine congrArg₂ List.cons rfl (List.map_congr_left fun j hj => ?_)
    simp [List.take_succ_cons, List.foldl_cons, Function.comp, streamStep]

theorem streamLoopAux_cancel_acked :
    ∀ (msgs : List (RawMsg D)) (i : Nat) (eff : List (NatsMessage T)) (k : Nat),
      i ≤ k →
      (streamLoopAux decode reduce (some k) i eff msgs).acked
        = msgs.take (k - i + 1) := by
  intro msgs
  induction msgs with
  | nil => intro i eff k hik; rfl
  | cons m rest ih =>
    intro i eff k hik
    rcases Nat.lt_or_ge i k with hlt | hge
    · have hcond : cancelObserved (some k) i = false := by
        simp [cancelObserved]; omega
      simp only [streamLoopAux, hcond, Bool.false_eq_true, if_false]
      rw [ih (i + 1) _ k hlt]
      have harith : k - i + 1 = (k - (i + 1) + 1) + 1 := by omega
      rw [harith, List.take_succ_cons]
    · have hik2 : i = k := le_antisymm hik hge
      subst hik2
      have hcond : cancelObserved (some i) i = true := by simp [cancelObserved]
      simp only [streamLoopAux, hcond, if_true]
      have harith : i - i + 1 = 1 := by omega
      rw [harith]
      rfl

theorem streamLoopAux_cancel_published :
    ∀ (msgs : List (RawMsg D)) (i : Nat) (eff : List (NatsMessage T)) (k : Nat),
      i ≤ k →
      (streamLoopAux decode reduce (some k) i eff msgs).published
        = (List.range (min (k - i) msgs.length)).map
            (fun j => (msgs.take (j + 1)).foldl (streamStep decode reduce) eff) := by
  intro msgs
  induction msgs with
  | nil => intro i eff k hik; simp [streamLoopAux]
  | cons m rest ih =>
    intro i eff k hik
    rcases Nat.lt_or_ge i k with hlt | hge
    · have hcond : cancelObserved (some k) i = false := by
        simp [cancelObserved]; omega
      simp only [streamLoopAux, hcond, Bool.false_eq_true, if_false, List.length_cons]
      rw [ih (i + 1) _ k hlt]
      have harith : min (k - i) (rest.length + 1) = min (k - (i + 1)) rest.length + 1 := by
        omega
      rw [harith, List.range_succ_eq_map, List.map_cons, List.map_map]
      refine congrArg₂ List.cons rfl (List.map_congr_left fun j hj => ?_)
      simp [List.take_succ_cons, List.foldl_cons, Function.comp, streamStep]
    · have hik2 : i = k := le_antisymm hik hge
      subst hik2
      have hcond : cancelObserved (some i) i = true := by simp [cancelObserved]
      simp only [streamLoopAux, hcond, if_true]
      have harith : min (i - i) (m :: rest).length = 0 := by simp
      rw [harith]
      rfl

theorem streamLoop_published_mem (cancelAt : Option Nat) (msgs : List (RawMsg D))
    (s : List (NatsMessage T))
    (hs : s ∈ (streamLoop decode reduce cancelAt msgs).published) :
    ∃ j, s = (msgs.take j).foldl (streamStep decode reduce) [] := by
  cases cancelAt with
  | none =>
    rw [streamLoop, streamLoopAux_none_published] at hs
    obtain ⟨j, -, hj⟩ := List.mem_map.mp hs
    exact ⟨j + 1, hj.symm⟩
  | some k =>
    rw [streamLoop, streamLoopAux_cancel_published decode reduce msgs 0 [] k (Nat.zero_le k)] at hs
    obtain ⟨j, -, hj⟩ := List.mem_map.mp hs
    exact ⟨j + 1, hj.symm⟩

end StreamLoop

/-- C2: every entries array produced by `useNatsKvTable` — along the batched
path and along the unbatched path — is sorted in ascending key order under
the `localeCompare` order and contains at most one entry per key;
`stableUpsert` preserves this invariant for every input array satisfying it,
in both the copying and the in-place variant, and the `DEL`/`PURGE`
filtering preserves it as well. -/
theorem useNatsKvTable_entries_invariant :
    (∀ evs : List (KvEvent K V),
      TableInv (runBatched evs).entries ∧ TableInv (runUnbatched evs)) ∧
    (∀ (l : List (NatsEntry K V)) (e : NatsEntry K V), TableInv l →
      TableInv (stableUpsert l e) ∧ TableInv (stableUpsertInPlace l e)) ∧
    (∀ (l : List (NatsEntry K V)) (k : K), TableInv l →
      TableInv (l.filter (fun item => item.key != k))) := by
  refine ⟨fun evs => ⟨tableInv_foldl_batched evs ⟨[], []⟩ tableInv_nil,
      tableInv_foldl_unbatched evs [] tableInv_nil⟩,
    fun l e h => ⟨tableInv_stableUpsert l e h, ?_⟩,
    fun l k h => tableInv_filter l _ h⟩
  rw [stableUpsertInPlace_eq]
  exact tableInv_stableUpsert l e h

/-- Witness for C2 at concrete inputs. -/
theorem useNatsKvTable_entries_invariant_witness :
    TableInv ([⟨1, 10, 0⟩, ⟨2, 20, 0⟩] : List (NatsEntry Nat Nat)) ∧
    TableInv (stableUpsert ([⟨1, 10, 0⟩, ⟨2, 20, 0⟩] : List (NatsEntry Nat Nat)) ⟨2, 99, 5⟩) ∧
    TableInv (stableUpsertInPlace ([⟨1, 10, 0⟩, ⟨2, 20, 0⟩] : List (NatsEntry Nat Nat)) ⟨3, 30, 5⟩) ∧
    TableInv (List.filter (fun item => item.key != 1)
      ([⟨1, 10, 0⟩, ⟨2, 20, 0⟩] : List (NatsEntry Nat Nat))) ∧
    TableInv (runBatched [KvEvent.put ⟨2, 20, 0⟩, KvEvent.put ⟨1, 10, 1⟩,
      KvEvent.flushTick, KvEvent.del 1]).entries :=
  ⟨by decide,
   (useNatsKvTable_entries_invariant.2.1 _ _ (by decide)).1,
   (useNatsKvTable_entries_invariant.2.1 _ ⟨3, 30, 5⟩ (by decide)).2,
   useNatsKvTable_entries_invariant.2.2 _ 1 (by decide),
   (useNatsKvTable_entries_invariant.1 _).1⟩

/-- C3: batching is a pure optimisation. Flushing accumulated pending
updates at once (`flushUpdates`, which reduces over the in-place
`stableUpsert`) equals applying each update immediately with the copying
`stableUpsert` (the unbatched path), for every prior entries array and
every finite sequence of updates; consequently a batched run of `PUT`
events followed by one timer flush yields the same entries array as the
unbatched run of the same `PUT` events. -/
theorem batching_is_pure_optimisation :
    (∀ prev updates : List (NatsEntry K V),
      flushUpdates prev updates
        = updates.foldl (fun acc newEntry => stableUpsert acc newEntry) prev) ∧
    (∀ es : List (NatsEntry K V),
      (runBatched (es.map KvEvent.put ++ [KvEvent.flushTick])).entries
        = runUnbatched (es.map KvEvent.put)) := by
  have hflush : ∀ prev updates : List (NatsEntry K V),
      flushUpdates prev updates
        = updates.foldl (fun acc newEntry => stableUpsert acc newEntry) prev := by
    intro prev updates
    unfold flushUpdates
    split
    · next hemp =>
        rw [List.isEmpty_iff] at hemp
        subst hemp
        rfl
    · exact foldl_upsertInPlace_eq_foldl_upsert updates prev
  refine ⟨hflush, fun es => ?_⟩
  unfold runBatched runUnbatched
  rw [List.foldl_append, foldl_batched_puts, foldl_unbatched_puts]
  show flushUpdates [] ([] ++ es) = _
  rw [List.nil_append, hflush]

/-- Counterexample to C4 as stated: in an array where `newEntry.key` occurs
at index `1` but also earlier, `stableUpsert` replaces the earlier
occurrence, so a position other than `1` changes. -/
theorem stableUpsert_frame_cex :
    (([⟨0, 0, 0⟩, ⟨0, 1, 0⟩] : List (NatsEntry Nat Nat))[1]?).map NatsEntry.key
        = some (⟨0, 2, 7⟩ : NatsEntry Nat Nat).key ∧
    (stableUpsert ([⟨0, 0, 0⟩, ⟨0, 1, 0⟩] : List (NatsEntry Nat Nat)) ⟨0, 2, 7⟩)[0]?
        ≠ some (⟨0, 0, 0⟩ : NatsEntry Nat Nat) := by decide

/-- C4 (amended): upserts are stable — for every array in which
`newEntry.key` first occurs at index `i`, `stableUpsert` returns an array
identical to the input at every position except `i`, where the old entry is
replaced by `newEntry`; no other entry changes value or position. -/
theorem stableUpsert_frame (arr : List (NatsEntry K V)) (e : NatsEntry K V) (i : Nat)
    (hi : i < arr.length) (hk : arr[i].key = e.key)
    (hfirst : ∀ j (hj : j < arr.length), j < i → arr[j].key ≠ e.key) :
    (stableUpsert arr e).length = arr.length ∧
    (stableUpsert arr e)[i]? = some e ∧
    ∀ j : Nat, j ≠ i → (stableUpsert arr e)[j]? = arr[j]? := by
  have hf : arr.findIdx? (fun item => item.key == e.key) = some i := by
    rw [List.findIdx?_eq_some_iff_findIdx_eq]
    refine ⟨hi, (List.findIdx_eq hi).mpr ⟨by simp [hk], fun j hj => ?_⟩⟩
    have := hfirst j (lt_trans hj hi) hj
    simpa using this
  rw [stableUpsert_found hf, ← List.set_eq_take_cons_drop e hi]
  refine ⟨List.length_set arr i e, List.getElem?_set_self hi, fun j hj => ?_⟩
  exact List.getElem?_set_ne (fun h => hj h.symm)

/-- Witness for C4 (amended) at concrete inputs. -/
theorem stableUpsert_frame_witness :
    (stableUpsert ([⟨1, 10, 0⟩, ⟨2, 20, 0⟩] : List (NatsEntry Nat Nat)) ⟨2, 99, 5⟩).length = 2 ∧
    (stableUpsert ([⟨1, 10, 0⟩, ⟨2, 20, 0⟩] : List (NatsEntry Nat Nat)) ⟨2, 99, 5⟩)[1]?
        = some ⟨2, 99, 5⟩ ∧
    ∀ j : Nat, j ≠ 1 →
      (stableUpsert ([⟨1, 10, 0⟩, ⟨2, 20, 0⟩] : List (NatsEntry Nat Nat)) ⟨2, 99, 5⟩)[j]?
        = ([⟨1, 10, 0⟩, ⟨2, 20, 0⟩] : List (NatsEntry Nat Nat))[j]? :=
  stableUpsert_frame [⟨1, 10, 0⟩, ⟨2, 20, 0⟩] ⟨2, 99, 5⟩ 1
    (by decide) (by decide) (by decide)

/-- C9: on a `DEL` or `PURGE` watch event for key `k`, the batched path of
`useNatsKvTable` removes exactly the entries whose key equals `k` from both
the visible entries array and the pending-updates buffer, as a direct step
that involves no timer flush; every entry with a different key is kept with
its value, and the results are sublists of the inputs, so relative positions
are preserved. `PURGE` acts identically to `DEL`. -/
theorem kv_del_removes_exactly_key (s : KvState K V) (k : K) :
    (∀ x : NatsEntry K V,
      x ∈ (applyBatched s (KvEvent.del k)).entries ↔ x ∈ s.entries ∧ x.key ≠ k) ∧
    (∀ x : NatsEntry K V,
      x ∈ (applyBatched s (KvEvent.del k)).pending ↔ x ∈ s.pending ∧ x.key ≠ k) ∧
    (applyBatched s (KvEvent.del k)).entries.Sublist s.entries ∧
    (applyBatched s (KvEvent.del k)).pending.Sublist s.pending ∧
    applyBatched s (KvEvent.purge k) = applyBatched s (KvEvent.del k) := by
  refine ⟨fun x => ?_, fun x => ?_, List.filter_sublist _, List.filter_sublist _, rfl⟩
  · show x ∈ s.entries.filter (fun item => item.key != k) ↔ _
    rw [List.mem_filter, bne_iff_ne]
  · show x ∈ s.pending.filter (fun item => item.key != k) ↔ _
    rw [List.mem_filter, bne_iff_ne]

/-- C1: for every sequence of messages delivered to the stream read loop
while the effect stays current, the data returned by `useNatsStream` (the
last value passed to `setData`, or the initial `[]`) equals the left fold of
the user-supplied `reducer.reduce`, starting from the empty array, over the
records `{received: m.time, subject: m.subject, value: decoder.decode(m.data)}`
taken in delivery order. -/
theorem useNatsStream_data_is_fold {D T : Type} (decode : D → T)
    (reduce : List (NatsMessage T) → NatsMessage T → List (NatsMessage T))
    (msgs : List (RawMsg D)) :
    shownData (streamLoop decode reduce none msgs)
      = msgs.foldl (fun acc m => reduce acc (mkRecord decode m)) [] := by
  show (streamLoop decode reduce none msgs).published.getLastD [] = _
  rw [streamLoop, streamLoopAux_none_shown, streamLoopAux_none_final]
  rfl

/-- C6: in the stream read loop, every delivered message is acknowledged
exactly once — when the effect is cancelled during iteration `k`, the
acknowledged messages are exactly the first `k + 1` delivered ones, and with
no cancellation they are all of them — and the acknowledgement precedes the
cancellation check: the message processed at the cancellation point is
acknowledged, yet the published arrays only ever reflect the first `k`
messages, so that final message is never published via `setData`. -/
theorem useNatsStream_ack_discipline {D T : Type} (decode : D → T)
    (reduce : List (NatsMessage T) → NatsMessage T → List (NatsMessage T))
    (k : Nat) (msgs : List (RawMsg D)) :
    (streamLoop decode reduce (some k) msgs).acked = msgs.take (k + 1) ∧
    (streamLoop decode reduce (some k) msgs).published
      = (List.range (min k msgs.length)).map
          (fun j => (msgs.take (j + 1)).foldl
            (fun acc m => reduce acc (mkRecord decode m)) []) ∧
    (streamLoop decode reduce none msgs).acked = msgs := by
  refine ⟨?_, ?_, streamLoopAux_none_acked decode reduce msgs 0 []⟩
  · rw [streamLoop, streamLoopAux_cancel_acked decode reduce msgs 0 [] k (Nat.zero_le k),
      Nat.sub_zero]
  · rw [streamLoop, streamLoopAux_cancel_published decode reduce msgs 0 [] k (Nat.zero_le k)]
    rfl

/-- C10: the effect body of `useNatsStream` publishes `setData([])` first,
and every array it subsequently publishes is the fold, from the empty
array, of a prefix of the messages delivered in the current run — so data
folded from messages of a previous run never appears in the data produced
by the new run, whichever inputs changed. -/
theorem useNatsStream_reset_on_rerun {D T S : Type} (toISO : Nat → String)
    (decode : D → T)
    (reduce : List (NatsMessage T) → NatsMessage T → List (NatsMessage T))
    (cancelAt : Option Nat) (connection : Option Unit) (stream : Option String)
    (startTime : Option Nat) (subject : Option S) (msgs : List (RawMsg D)) :
    (streamEffect toISO decode reduce cancelAt connection stream startTime
        subject msgs).1.head? = some [] ∧
    ∀ s ∈ (streamEffect toISO decode reduce cancelAt connection stream startTime
        subject msgs).1,
      ∃ j, s = (msgs.take j).foldl (fun acc m => reduce acc (mkRecord decode m)) [] := by
  have hmem : ∀ s ∈ (streamEffect toISO decode reduce cancelAt connection stream
      startTime subject msgs).1,
      ∃ j, s = (msgs.take j).foldl (streamStep decode reduce) [] := by
    intro s hs
    cases connection with
    | none =>
      rw [List.mem_singleton.mp hs]
      exact ⟨0, rfl⟩
    | some c =>
      cases startTime with
      | none =>
        rw [List.mem_singleton.mp hs]
        exact ⟨0, rfl⟩
      | some t =>
        cases stream with
        | none =>
          rw [List.mem_singleton.mp hs]
          exact ⟨0, rfl⟩
        | some st =>
          rcases List.mem_cons.mp hs with hnil | hpub
          · exact ⟨0, hnil⟩
          · exact streamLoop_published_mem decode reduce cancelAt msgs s hpub
  refine ⟨?_, hmem⟩
  cases connection with
  | none => rfl
  | some c =>
    cases startTime with
    | none => rfl
    | some t =>
      cases stream with
      | none => rfl
      | some st => rfl

/-- Witness for C10 at concrete inputs. -/
theorem useNatsStream_reset_on_rerun_witness :
    (streamEffect toString id (fun acc d => acc ++ [d]) none (some ()) (some "s")
        (some 0) (none : Option String) [⟨5, "a", 7⟩]).1.head? = some [] ∧
    ∃ j, [({ subject := "a", value := 7, received := 5 } : NatsMessage Nat)]
      = (([⟨5, "a", 7⟩] : List (RawMsg Nat)).take j).foldl
          (fun acc m => acc ++ [mkRecord id m]) [] :=
  ⟨(useNatsStream_reset_on_rerun toString id (fun acc d => acc ++ [d]) none
      (some ()) (some "s") (some 0) none [⟨5, "a", 7⟩]).1,
   (useNatsStream_reset_on_rerun toString id (fun acc d => acc ++ [d]) none
      (some ()) (some "s") (some 0) (none : Option String) [⟨5, "a", 7⟩]).2
     [⟨"a", 7, 5⟩] (by decide)⟩

/-- C8: when the connection is `null`, `opt_start_time` is absent or
`stream` is absent, the effect of `useNatsStream` makes no external call
(no consumer is created) and only ever publishes the empty array. -/
theorem useNatsStream_guard {D T S : Type} (toISO : Nat → String) (decode : D → T)
    (reduce : List (NatsMessage T) → NatsMessage T → List (NatsMessage T))
    (cancelAt : Option Nat) (connection : Option Unit) (stream : Option String)
    (startTime : Option Nat) (subject : Option S) (msgs : List (RawMsg D))
    (h : connection = none ∨ startTime = none ∨ stream = none) :
    streamEffect toISO decode reduce cancelAt connection stream startTime
      subject msgs = ([[]], none) := by
  rcases h with h | h | h
  · rw [h]; rfl
  · cases connection with
    | none => rfl
    | some c => rw [h]; rfl
  · cases connection with
    | none => rfl
    | some c =>
      cases startTime with
      | none => rfl
      | some t => rw [h]; rfl

/-- Witness for C8 at concrete inputs. -/
theorem useNatsStream_guard_witness :
    streamEffect toString id (fun acc d => acc ++ [d]) none (some ())
      (some "s") none (none : Option String) ([] : List (RawMsg Nat)) = ([[]], none) :=
  useNatsStream_guard toString id (fun acc d => acc ++ [d]) none (some ())
    (some "s") none none [] (Or.inr (Or.inl rfl))

/-- C5: whenever `opt_start_time` is supplied, the ordered-consumer options
passed to `js.consumers.get` have `deliver_policy` equal to
`DeliverPolicy.StartTime` and `opt_start_time` equal to the ISO-8601 string
of the supplied date; when a subject is supplied, `filter_subjects` is set
to it; and the effect passes exactly the stream name and these options to
`js.consumers.get`. -/
theorem useNatsStream_startTime_options {S : Type} (toISO : Nat → String)
    (t : Nat) (subject : Option S) :
    (mkConsumerOpts toISO (some t) subject).deliver_policy
        = some DeliverPolicy.startTime ∧
    (mkConsumerOpts toISO (some t) subject).opt_start_time = some (toISO t) ∧
    (∀ s, subject = some s →
      (mkConsumerOpts toISO (some t) subject).filter_subjects = some s) ∧
    (∀ (D T : Type) (decode : D → T)
      (reduce : List (NatsMessage T) → NatsMessage T → List (NatsMessage T))
      (cancelAt : Option Nat) (st : String) (msgs : List (RawMsg D)),
      (streamEffect toISO decode reduce cancelAt (some ()) (some st) (some t)
        subject msgs).2 = some (st, mkConsumerOpts toISO (some t) subject)) := by
  refine ⟨?_, ?_, ?_, fun D T decode reduce cancelAt st msgs => rfl⟩
  · cases subject with
    | none => rfl
    | some s => rfl
  · cases subject with
    | none => rfl
    | some s => rfl
  · intro s hs
    rw [hs]
    rfl

/-- Witness for C5 at concrete inputs. -/
theorem useNatsStream_startTime_options_witness :
    (mkConsumerOpts toString (some 42) (some "orders.new")).deliver_policy
        = some DeliverPolicy.startTime ∧
    (mkConsumerOpts toString (some 42) (some "orders.new")).opt_start_time
        = some (toString 42) ∧
    (mkConsumerOpts toString (some 42) (some "orders.new")).filter_subjects
        = some "orders.new" :=
  ⟨(useNatsStream_startTime_options toString 42 (some "orders.new")).1,
   (useNatsStream_startTime_options toString 42 (some "orders.new")).2.1,
   (useNatsStream_startTime_options toString 42 (some "orders.new")).2.2.1
     "orders.new" rfl⟩

/-- C7: the connection setup of `NatsProvider` calls `wsconnect` with
`servers` set to the `url` prop and the defaults `reconnect = true`,
`pingInterval = 10000` and `maxPingOut = 5`, and every entry the user
supplies in the `options` prop overrides the corresponding entry of that
base object. -/
theorem natsProvider_wsconnect_options (url : String) (o : ConnectionOptions) :
    (o.servers = none → (wsconnectArgs url o).servers = url) ∧
    (o.reconnect = none → (wsconnectArgs url o).reconnect = true) ∧
    (o.pingInterval = none → (wsconnectArgs url o).pingInterval = 10000) ∧
    (o.maxPingOut = none → (wsconnectArgs url o).maxPingOut = 5) ∧
    (∀ v, o.servers = some v → (wsconnectArgs url o).servers = v) ∧
    (∀ b, o.reconnect = some b → (wsconnectArgs url o).reconnect = b) ∧
    (∀ n, o.pingInterval = some n → (wsconnectArgs url o).pingInterval = n) ∧
    (∀ n, o.maxPingOut = some n → (wsconnectArgs url o).maxPingOut = n) := by
  refine ⟨fun h => ?_, fun h => ?_, fun h => ?_, fun h => ?_,
    fun v h => ?_, fun b h => ?_, fun n h => ?_, fun n h => ?_⟩ <;>
    simp [wsconnectArgs, h]

/-- Witness for C7 at concrete inputs. -/
theorem natsProvider_wsconnect_options_witness :
    (wsconnectArgs "ws://localhost:4222" ⟨none, some false, none, none⟩).servers
        = "ws://localhost:4222" ∧
    (wsconnectArgs "ws://localhost:4222" ⟨none, some false, none, none⟩).reconnect
        = false ∧
    (wsconnectArgs "ws://localhost:4222" ⟨none, some false, none, none⟩).pingInterval
        = 10000 ∧
    (wsconnectArgs "ws://localhost:4222" ⟨none, some false, none, none⟩).maxPingOut
        = 5 :=
  ⟨(natsProvider_wsconnect_options "ws://localhost:4222"
      ⟨none, some false, none, none⟩).1 rfl,
   (natsProvider_wsconnect_options "ws://localhost:4222"
      ⟨none, some false, none, none⟩).2.2.2.2.2.1 false rfl,
   (natsProvider_wsconnect_options "ws://localhost:4222"
      ⟨none, some false, none, none⟩).2.2.1 rfl,
   (natsProvider_wsconnect_options "ws://localhost:4222"
      ⟨none, some false, none, none⟩).2.2.2.1 rfl⟩

end ReactNats
